import Mathlib

/-!
Shallow embedding of the contrastive batch scorer (`SimCLR.info_nce_loss`)
from the repository's SimCLR notebook.  An embedding is a list of reals, a
batch is a list of such vectors; floating-point tensors are modelled by
exact reals.  The instance attributes the method reads (`self.batch_size`,
`self.temperature`) are passed explicitly to the standalone function
`info_nce_loss`; the `SimCLR` structure below packages them back into an
object to model the method call.
-/

/-- Dot product of two vectors: one entry of `torch.matmul(features, features.T)`. -/
def dot (u v : List ℝ) : ℝ := (List.zipWith (fun a b => a * b) u v).sum

/-- Euclidean norm of a vector, as used by `F.normalize(features, dim=1)`. -/
noncomputable def l2norm (v : List ℝ) : ℝ := Real.sqrt (dot v v)

/-- One row of `F.normalize(features, dim=1)`: divide the vector by its L2
norm.  (The library's `eps` guard matters only for the zero vector, where
division by zero yields zero here.) -/
noncomputable def l2_normalize (v : List ℝ) : List ℝ := v.map (fun x => x / l2norm v)

/-- `torch.matmul(features, features.T)` after row normalization: the
cosine-similarity matrix of the batch. -/
noncomputable def similarity_matrix (features : List (List ℝ)) : List (List ℝ) :=
  (features.map l2_normalize).map (fun u => (features.map l2_normalize).map (fun v => dot u v))

/-- `torch.cat([torch.arange(self.batch_size) for i in range(2)], dim=0)`. -/
def labels_vec (batch_size : ℕ) : List ℕ :=
  List.range batch_size ++ List.range batch_size

/-- `(labels.unsqueeze(0) == labels.unsqueeze(1))`: the boolean matrix whose
entry (i, j) is true iff positions i and j carry the same sample id. -/
def labels_mat (batch_size : ℕ) : List (List Bool) :=
  (labels_vec batch_size).map (fun a => (labels_vec batch_size).map (fun b => a == b))

/-- `m[~torch.eye(n, dtype=torch.bool)].view(n, -1)` on a square matrix: the
row-major flatten minus the diagonal, reshaped to n rows of n-1 entries; on a
square matrix this removes entry i from row i. -/
def drop_diag {α : Type} (m : List (List α)) : List (List α) :=
  m.enum.map (fun p => p.2.eraseIdx p.1)

/-- Row-wise effect of `similarity_matrix[labels.bool()].view(labels.shape[0], -1)`:
keep the entries whose label is true.  (Each masked row carries exactly one
true label, so the reshape keeps rows aligned.) -/
def select_pos (srow : List ℝ) (lrow : List Bool) : List ℝ :=
  ((srow.zip lrow).filter (fun p => p.2)).map Prod.fst

/-- Row-wise effect of `similarity_matrix[~labels.bool()].view(similarity_matrix.shape[0], -1)`:
keep the entries whose label is false. -/
def select_neg (srow : List ℝ) (lrow : List Bool) : List ℝ :=
  ((srow.zip lrow).filter (fun p => !p.2)).map Prod.fst

/-- Body of `SimCLR.info_nce_loss`, with the instance attributes
`self.batch_size` and `self.temperature` passed explicitly: build the label
mask and the similarity matrix, drop the diagonal from both, concatenate the
positive entries with the negative entries row by row, replace the labels by
the all-zero vector, and divide the logits by the temperature. -/
noncomputable def info_nce_loss (batch_size : ℕ) (temperature : ℝ)
    (features : List (List ℝ)) : List (List ℝ) × List ℕ :=
  let lab := drop_diag (labels_mat batch_size)
  let sim := drop_diag (similarity_matrix features)
  let logits := (sim.zip lab).map (fun p => select_pos p.1 p.2 ++ select_neg p.1 p.2)
  let labels : List ℕ := List.replicate logits.length 0
  (logits.map (List.map (fun x => x / temperature)), labels)

/-- Root-level alias of `info_nce_loss`; inside the method declaration below
the bare name would denote the method itself, so the method goes through this
alias. -/
noncomputable def info_nce (batch_size : ℕ) (temperature : ℝ)
    (features : List (List ℝ)) : List (List ℝ) × List ℕ :=
  info_nce_loss batch_size temperature features

/-- The `SimCLR` trainer object: `__init__` stores the external collaborators
(model, optimizer, scheduler, device, criterion — opaque identifiers here)
together with the scalars `batch_size`, `temperature` and `epochs`. -/
structure SimCLR where
  model : ℕ
  optimizer : ℕ
  scheduler : ℕ
  device : ℕ
  criterion : ℕ
  batch_size : ℕ
  temperature : ℝ
  epochs : ℕ

/-- The method `SimCLR.info_nce_loss`: reads `self.batch_size` and
`self.temperature`, mutates nothing on `self`. -/
noncomputable def SimCLR.info_nce_loss (s : SimCLR) (features : List (List ℝ)) :
    List (List ℝ) × List ℕ :=
  info_nce s.batch_size s.temperature features

/-- Positive partner of anchor i in a batch of 2N rows: i + N when i < N,
else i - N (spec step 3). -/
def pair_idx (batch_size i : ℕ) : ℕ :=
  if i < batch_size then i + batch_size else i - batch_size

/-- Sample id stored at position i of `labels_vec`. -/
def sample_id (batch_size i : ℕ) : ℕ :=
  if i < batch_size then i else i - batch_size

/-- Similarity the code assigns to the pair of anchors (i, j): dot product of
the normalized rows i and j. -/
noncomputable def sim_entry (features : List (List ℝ)) (i j : ℕ) : ℝ :=
  dot (l2_normalize (features.getD i [])) (l2_normalize (features.getD j []))

/-- Spec-side definition (from the spec's words, for comparison with the
code-side `sim_entry`): cosine similarity of two raw vectors. -/
noncomputable def cosine_similarity (u v : List ℝ) : ℝ :=
  dot u v / (l2norm u * l2norm v)

/-- The spec's worked example: N = 2, D = 2,
embeddings `[[1,0],[0,1],[1,0],[0,1]]` (view A and view B identical per
sample). -/
noncomputable def ex_batch : List (List ℝ) := [[1, 0], [0, 1], [1, 0], [0, 1]]

/-- A degenerate batch with batch_size = 1 (N = 1): two orthogonal unit
vectors. -/
noncomputable def ex_pair : List (List ℝ) := [[1, 0], [0, 1]]

/-! ### Index-level reformulation of the pipeline -/

theorem map_eq_range_map {α β : Type} (d : α) (g : α → β) (l : List α) :
    l.map g = (List.range l.length).map (fun i => g (l.getD i d)) := by
  induction l with
  | nil => rfl
  | cons a tl ih =>
    rw [List.map_cons, List.length_cons, List.range_succ_eq_map, List.map_cons, List.map_map]
    refine congrArg₂ List.cons rfl ?_
    rw [ih]
    exact List.map_congr_left fun i _ => rfl

theorem getD_map_l2_normalize (f : List (List ℝ)) (i : ℕ) :
    (f.map l2_normalize).getD i [] = l2_normalize (f.getD i []) := by
  by_cases h : i < f.length
  · rw [List.getD_eq_getElem _ _ (by simpa using h), List.getD_eq_getElem _ _ h,
      List.getElem_map]
  · rw [List.getD_eq_default _ _ (by simpa using Nat.le_of_not_lt h),
      List.getD_eq_default _ _ (Nat.le_of_not_lt h)]
    rfl

theorem enum_range (n : ℕ) :
    (List.range n).enum = (List.range n).map (fun i => (i, i)) := by
  apply List.ext_getElem
  · simp
  · intro i h1 h2
    simp only [List.getElem_enum, List.getElem_map, List.getElem_range]

theorem drop_diag_map_range {α : Type} (n : ℕ) (h : ℕ → List α) :
    drop_diag ((List.range n).map h) = (List.range n).map (fun i => (h i).eraseIdx i) := by
  unfold drop_diag
  rw [List.enum_map, enum_range, List.map_map, List.map_map]
  exact List.map_congr_left fun i _ => rfl

theorem eraseIdx_map {α β : Type} (g : α → β) (l : List α) (i : ℕ) :
    (l.map g).eraseIdx i = (l.eraseIdx i).map g := by
  induction l generalizing i with
  | nil => rfl
  | cons a tl ih =>
    cases i with
    | zero => rfl
    | succ j => simp only [List.map_cons, List.eraseIdx_cons_succ, ih]

theorem eraseIdx_range (n i : ℕ) (hi : i < n) :
    (List.range n).eraseIdx i = (List.range n).filter (fun j => j != i) := by
  induction n with
  | zero => simp at hi
  | succ m ih =>
    rw [List.range_succ, List.filter_append]
    rcases Nat.lt_or_ge i m with h | h
    · rw [List.eraseIdx_append_of_lt_length (by simpa using h), ih h]
      have : (List.filter (fun j => j != i) [m]) = [m] := by
        simp [Nat.ne_of_gt h]
      rw [this]
    · have him : i = m := Nat.le_antisymm (Nat.lt_succ_iff.mp hi) h
      subst him
      rw [List.eraseIdx_append_of_length_le (by simp)]
      have h1 : (List.range i).filter (fun j => j != i) = List.range i :=
        List.filter_eq_self.mpr fun a ha => by
          simp [Nat.ne_of_lt (List.mem_range.mp ha)]
      have h2 : (List.filter (fun j => j != i) [i]) = [] := by simp
      rw [h1, h2, List.length_range]
      simp

theorem filter_eq_single (x : ℕ) (l : List ℕ) (hn : l.Nodup) (hx : x ∈ l) :
    l.filter (fun j => j == x) = [x] := by
  induction l with
  | nil => simp at hx
  | cons a tl ih =>
    rw [List.nodup_cons] at hn
    rcases List.mem_cons.mp hx with h | h
    · rw [List.filter_cons_of_pos (by simp [h])]
      have hnot : x ∉ tl := fun hmem => hn.1 (h ▸ hmem)
      have hnil : tl.filter (fun j => j == x) = [] :=
        List.filter_eq_nil_iff.mpr fun b hb => by
          simp only [beq_iff_eq]
          exact fun hbx => hnot (hbx ▸ hb)
      rw [hnil, h]
    · have hax : a ≠ x := fun hax => hn.1 (hax ▸ h)
      rw [List.filter_cons_of_neg (by simp [hax])]
      exact ih hn.2 h

theorem filter_ne_length (x : ℕ) (l : List ℕ) (hn : l.Nodup) (hx : x ∈ l) :
    (l.filter (fun j => j != x)).length = l.length - 1 := by
  induction l with
  | nil => simp at hx
  | cons a tl ih =>
    rw [List.nodup_cons] at hn
    rcases List.mem_cons.mp hx with h | h
    · rw [List.filter_cons_of_neg (by simp [h])]
      have hnot : x ∉ tl := fun hmem => hn.1 (h ▸ hmem)
      have hself : tl.filter (fun j => j != x) = tl :=
        List.filter_eq_self.mpr fun b hb => by
          simp only [bne_iff_ne, ne_eq, decide_eq_true_eq]
          exact fun hbx => hnot (hbx ▸ hb)
      simp [hself]
    · have hax : a ≠ x := fun hax => hn.1 (hax ▸ h)
      rw [List.filter_cons_of_pos (by simp [hax])]
      have htl : 1 ≤ tl.length := List.length_pos.mpr (List.ne_nil_of_mem h)
      rw [List.length_cons, List.length_cons, ih hn.2 h]
      omega

theorem sample_id_eq_iff (b i j : ℕ) (hb : 1 ≤ b) (hi : i < 2 * b) (hj : j < 2 * b) :
    sample_id b i = sample_id b j ↔ j = i ∨ j = pair_idx b i := by
  unfold sample_id pair_idx
  split_ifs <;> omega

theorem pair_idx_lt (b i : ℕ) (hb : 1 ≤ b) (hi : i < 2 * b) : pair_idx b i < 2 * b := by
  unfold pair_idx
  split_ifs <;> omega

theorem pair_idx_ne (b i : ℕ) (hb : 1 ≤ b) (hi : i < 2 * b) : pair_idx b i ≠ i := by
  unfold pair_idx
  split_ifs <;> omega

theorem labels_vec_eq (b : ℕ) :
    labels_vec b = (List.range (2 * b)).map (sample_id b) := by
  unfold labels_vec
  rw [two_mul, List.range_add, List.map_append, List.map_map]
  have h1 : (List.range b).map (sample_id b) = List.range b := by
    have := List.map_congr_left (l := List.range b) (f := sample_id b) (g := id)
      (fun i hi => by unfold sample_id; rw [if_pos (List.mem_range.mp hi)]; rfl)
    rw [this, List.map_id]
  have h2 : (List.range b).map (sample_id b ∘ (b + ·)) = List.range b := by
    have := List.map_congr_left (l := List.range b) (f := sample_id b ∘ (b + ·)) (g := id)
      (fun i _ => by
        show sample_id b (b + i) = i
        unfold sample_id
        rw [if_neg (by omega)]
        omega)
    rw [this, List.map_id]
  rw [h1, h2]

theorem labels_mat_eq (b : ℕ) :
    labels_mat b = (List.range (2 * b)).map (fun i =>
      (List.range (2 * b)).map (fun j => sample_id b i == sample_id b j)) := by
  unfold labels_mat
  rw [labels_vec_eq, List.map_map]
  exact List.map_congr_left fun i _ => by
    simp only [Function.comp_apply]
    rw [List.map_map]
    rfl

theorem similarity_matrix_eq (f : List (List ℝ)) :
    similarity_matrix f = (List.range f.length).map (fun i =>
      (List.range f.length).map (fun j => sim_entry f i j)) := by
  unfold similarity_matrix
  rw [map_eq_range_map ([] : List ℝ)
    (fun u => (f.map l2_normalize).map (fun v => dot u v)) (f.map l2_normalize)]
  simp only [List.length_map]
  apply List.map_congr_left
  intro i _
  rw [getD_map_l2_normalize]
  rw [map_eq_range_map ([] : List ℝ) (fun v => dot (l2_normalize (f.getD i [])) v)
    (f.map l2_normalize)]
  simp only [List.length_map]
  apply List.map_congr_left
  intro j _
  rw [getD_map_l2_normalize]
  rfl

theorem select_pos_map (J : List ℕ) (σ : ℕ → ℝ) (lb : ℕ → Bool) :
    select_pos (J.map σ) (J.map lb) = (J.filter lb).map σ := by
  unfold select_pos
  rw [List.zip_map', List.filter_map, List.map_map]
  rfl

theorem select_neg_map (J : List ℕ) (σ : ℕ → ℝ) (lb : ℕ → Bool) :
    select_neg (J.map σ) (J.map lb) = (J.filter (fun j => !lb j)).map σ := by
  unfold select_neg
  rw [List.zip_map', List.filter_map, List.map_map]
  rfl

theorem positives_filter (b i : ℕ) (hb : 1 ≤ b) (hi : i < 2 * b) :
    ((List.range (2 * b)).filter (fun j => j != i)).filter
        (fun j => sample_id b i == sample_id b j) = [pair_idx b i] := by
  rw [List.filter_filter]
  have hcongr : ∀ j ∈ List.range (2 * b),
      ((sample_id b i == sample_id b j) && (j != i)) = (j == pair_idx b i) := by
    intro j hj
    have hj' := List.mem_range.mp hj
    rw [Bool.eq_iff_iff]
    simp only [Bool.and_eq_true, beq_iff_eq, bne_iff_ne, ne_eq]
    constructor
    · rintro ⟨hs, hne⟩
      rcases (sample_id_eq_iff b i j hb hi hj').mp hs with h | h
      · exact absurd h hne
      · exact h
    · rintro rfl
      exact ⟨(sample_id_eq_iff b i (pair_idx b i) hb hi (pair_idx_lt b i hb hi)).mpr
          (Or.inr rfl), pair_idx_ne b i hb hi⟩
  rw [List.filter_congr hcongr]
  exact filter_eq_single (pair_idx b i) (List.range (2 * b)) (List.nodup_range (2 * b))
    (List.mem_range.mpr (pair_idx_lt b i hb hi))

theorem negatives_filter (b i : ℕ) (hb : 1 ≤ b) (hi : i < 2 * b) :
    ((List.range (2 * b)).filter (fun j => j != i)).filter
        (fun j => !(sample_id b i == sample_id b j)) =
      (List.range (2 * b)).filter (fun j => j != i && j != pair_idx b i) := by
  rw [List.filter_filter]
  apply List.filter_congr
  intro j hj
  have hj' := List.mem_range.mp hj
  rw [Bool.eq_iff_iff]
  simp only [Bool.and_eq_true, Bool.not_eq_true', beq_eq_false_iff_ne, ne_eq,
    bne_iff_ne]
  constructor
  · rintro ⟨hs, hne⟩
    refine ⟨hne, fun hp => hs ?_⟩
    exact (sample_id_eq_iff b i j hb hi hj').mpr (Or.inr hp)
  · rintro ⟨hne, hp⟩
    refine ⟨fun hs => ?_, hne⟩
    rcases (sample_id_eq_iff b i j hb hi hj').mp hs with h | h
    · exact hne h
    · exact hp h

theorem info_nce_loss_eq (b : ℕ) (t : ℝ) (f : List (List ℝ))
    (hb : 1 ≤ b) (hf : f.length = 2 * b) :
    info_nce_loss b t f =
      ((List.range (2 * b)).map (fun i =>
        sim_entry f i (pair_idx b i) / t ::
          ((List.range (2 * b)).filter
            (fun j => j != i && j != pair_idx b i)).map (fun j => sim_entry f i j / t)),
       List.replicate (2 * b) 0) := by
  have hzip : (drop_diag (similarity_matrix f)).zip (drop_diag (labels_mat b)) =
      (List.range (2 * b)).map (fun i =>
        ((((List.range (2 * b)).filter (fun j => j != i)).map (fun j => sim_entry f i j)),
         (((List.range (2 * b)).filter (fun j => j != i)).map
           (fun j => sample_id b i == sample_id b j)))) := by
    rw [similarity_matrix_eq, hf, labels_mat_eq, drop_diag_map_range, drop_diag_map_range,
      List.zip_map']
    apply List.map_congr_left
    intro i hi
    have hi' := List.mem_range.mp hi
    rw [eraseIdx_map, eraseIdx_map, eraseIdx_range _ _ hi']
  simp only [info_nce_loss]
  rw [hzip]
  refine congrArg₂ Prod.mk ?_ ?_
  · rw [List.map_map, List.map_map]
    apply List.map_congr_left
    intro i hi
    have hi' := List.mem_range.mp hi
    simp only [Function.comp_apply]
    rw [select_pos_map, select_neg_map, positives_filter b i hb hi',
      negatives_filter b i hb hi']
    simp only [List.map_cons, List.map_nil, List.singleton_append, List.map_map]
    rfl
  · rw [List.length_map, List.length_map, List.length_range]

/-! ### Algebraic facts about the similarity entries -/

theorem dot_comm (u v : List ℝ) : dot u v = dot v u := by
  unfold dot
  rw [List.zipWith_comm_of_comm (fun a b => a * b) mul_comm]

theorem dot_map_div (u v : List ℝ) (a c : ℝ) :
    dot (u.map (fun x => x / a)) (v.map (fun y => y / c)) = dot u v / (a * c) := by
  unfold dot
  rw [List.zipWith_map]
  have hfun : (fun (x y : ℝ) => x / a * (y / c)) = fun x y => x * y * (a * c)⁻¹ := by
    funext x y
    rw [div_mul_div_comm, div_eq_mul_inv]
  rw [hfun]
  have hmap : List.zipWith (fun x y : ℝ => x * y * (a * c)⁻¹) u v =
      (List.zipWith (fun x y : ℝ => x * y) u v).map (fun s => s * (a * c)⁻¹) :=
    (List.map_zipWith (fun s : ℝ => s * (a * c)⁻¹) (fun x y : ℝ => x * y) u v).symm
  rw [hmap, div_eq_mul_inv]
  have hsum := List.sum_map_mul_right (List.zipWith (fun x y : ℝ => x * y) u v)
    id ((a * c)⁻¹)
  simpa using hsum

theorem sim_entry_eq_cosine (f : List (List ℝ)) (i j : ℕ) :
    sim_entry f i j = cosine_similarity (f.getD i []) (f.getD j []) := by
  unfold sim_entry cosine_similarity l2_normalize
  rw [dot_map_div]

theorem getD_map_range {α : Type} (n i : ℕ) (hi : i < n) (F : ℕ → α) (d : α) :
    ((List.range n).map F).getD i d = F i := by
  rw [List.getD_eq_getElem _ _ (by simpa using hi), List.getElem_map, List.getElem_range]

theorem getD_map_of_default {α β : Type} (g : α → β) (l : List α) (i : ℕ)
    (d : α) (e : β) (h : g d = e) : (l.map g).getD i e = g (l.getD i d) := by
  by_cases hb : i < l.length
  · rw [List.getD_eq_getElem _ _ (by simpa using hb), List.getD_eq_getElem _ _ hb,
      List.getElem_map]
  · rw [List.getD_eq_default _ _ (by simpa using Nat.le_of_not_lt hb),
      List.getD_eq_default _ _ (Nat.le_of_not_lt hb), h]

theorem negatives_length (b i : ℕ) (hb : 1 ≤ b) (hi : i < 2 * b) :
    ((List.range (2 * b)).filter (fun j => j != i && j != pair_idx b i)).length
      = 2 * b - 2 := by
  have hcomb : (List.range (2 * b)).filter (fun j => j != i && j != pair_idx b i)
      = ((List.range (2 * b)).filter (fun j => j != i)).filter
          (fun j => j != pair_idx b i) := by
    rw [List.filter_filter]
    apply List.filter_congr
    intro j _
    rw [Bool.and_comm]
  have hnd : ((List.range (2 * b)).filter (fun j => j != i)).Nodup :=
    List.Nodup.filter _ (List.nodup_range (2 * b))
  have hmem : pair_idx b i ∈ (List.range (2 * b)).filter (fun j => j != i) :=
    List.mem_filter.mpr ⟨List.mem_range.mpr (pair_idx_lt b i hb hi),
      by simpa using pair_idx_ne b i hb hi⟩
  rw [hcomb, filter_ne_length _ _ hnd hmem,
    filter_ne_length _ _ (List.nodup_range (2 * b)) (List.mem_range.mpr hi),
    List.length_range]
  omega

theorem dot_map_mul (c : ℝ) (u v : List ℝ) :
    dot (u.map (fun x => c * x)) (v.map (fun y => c * y)) = c * c * dot u v := by
  unfold dot
  rw [List.zipWith_map]
  have hfun : (fun (x y : ℝ) => c * x * (c * y)) = fun x y => c * c * (x * y) := by
    funext x y
    ring
  rw [hfun]
  have hmap : List.zipWith (fun x y : ℝ => c * c * (x * y)) u v =
      (List.zipWith (fun x y : ℝ => x * y) u v).map (fun s => c * c * s) :=
    (List.map_zipWith (fun s : ℝ => c * c * s) (fun x y : ℝ => x * y) u v).symm
  rw [hmap]
  have hsum := List.sum_map_mul_left (List.zipWith (fun x y : ℝ => x * y) u v) id (c * c)
  simpa using hsum

theorem l2norm_map_mul (c : ℝ) (hc : 0 ≤ c) (v : List ℝ) :
    l2norm (v.map (fun x => c * x)) = c * l2norm v := by
  unfold l2norm
  rw [dot_map_mul, Real.sqrt_mul (mul_self_nonneg c) (dot v v), Real.sqrt_mul_self hc]

theorem l2_normalize_map_mul (c : ℝ) (hc : 0 < c) (v : List ℝ) :
    l2_normalize (v.map (fun x => c * x)) = l2_normalize v := by
  unfold l2_normalize
  rw [l2norm_map_mul c hc.le, List.map_map]
  apply List.map_congr_left
  intro x _
  simp only [Function.comp_apply]
  exact mul_div_mul_left x (l2norm v) (ne_of_gt hc)

theorem set_getD_self {α : Type} (l : List α) (m : ℕ) (d : α) (hm : m < l.length) :
    l.set m (l.getD m d) = l := by
  apply List.ext_getElem
  · simp
  · intro i h1 h2
    rw [List.getElem_set]
    split_ifs with h
    · subst h
      rw [List.getD_eq_getElem _ _ hm]
    · rfl

theorem info_nce_loss_congr (b : ℕ) (t : ℝ) (f g : List (List ℝ))
    (h : f.map l2_normalize = g.map l2_normalize) :
    info_nce_loss b t f = info_nce_loss b t g := by
  simp only [info_nce_loss]
  unfold similarity_matrix
  rw [h]

theorem info_nce_loss_double_temp (b : ℕ) (t : ℝ) (f : List (List ℝ)) :
    info_nce_loss b (2 * t) f =
      ((info_nce_loss b t f).1.map (List.map (fun x => x / 2)),
       (info_nce_loss b t f).2) := by
  simp only [info_nce_loss]
  refine congrArg₂ Prod.mk ?_ rfl
  simp only [List.map_map]
  apply List.map_congr_left
  intro row _
  simp only [Function.comp_apply, List.map_map]
  apply List.map_congr_left
  intro x _
  simp only [Function.comp_apply]
  rw [div_div, mul_comm t 2]

/-! ### The claims -/

/-- C1: for every valid batch of 2N embeddings (N ≥ 2) and positive
temperature, `info_nce_loss` returns a logits matrix with 2N rows of exactly
2N-1 entries each, together with labels equal to the constant zero sequence
of length 2N. -/
theorem claim_c1_shape (N : ℕ) (t : ℝ) (f : List (List ℝ))
    (hN : 2 ≤ N) (hf : f.length = 2 * N) (ht : 0 < t) :
    (info_nce_loss N t f).1.map List.length = List.replicate (2 * N) (2 * N - 1) ∧
    (info_nce_loss N t f).2 = List.replicate (2 * N) 0 := by
  have hb : 1 ≤ N := le_trans one_le_two hN
  have hm := info_nce_loss_eq N t f hb hf
  constructor
  · have h1 : (List.range (2 * N)).map (fun _ : ℕ => 2 * N - 1)
        = List.replicate (2 * N) (2 * N - 1) := by
      rw [List.map_const', List.length_range]
    rw [← h1]
    simp only [hm]
    rw [List.map_map]
    apply List.map_congr_left
    intro i hi
    have hi' := List.mem_range.mp hi
    simp only [Function.comp_apply, List.length_cons, List.length_map]
    rw [negatives_length N i hb hi']
    omega
  · rw [hm]

/-- C2: for every valid batch and every anchor i, the first entry of logits
row i is the cosine similarity between embedding i and its positive partner
(i+N for i < N, else i-N, which is what `pair_idx` computes), divided by the
temperature. -/
theorem claim_c2_positive (N : ℕ) (t : ℝ) (f : List (List ℝ)) (i : ℕ)
    (hN : 2 ≤ N) (hf : f.length = 2 * N) (ht : 0 < t) (hi : i < 2 * N) :
    ((info_nce_loss N t f).1.getD i []).getD 0 0 =
      cosine_similarity (f.getD i []) (f.getD (pair_idx N i) []) / t := by
  have hb : 1 ≤ N := le_trans one_le_two hN
  simp only [info_nce_loss_eq N t f hb hf]
  rw [getD_map_range _ _ hi, List.getD_cons_zero, sim_entry_eq_cosine]

/-- C6: in every logits row the 2N-2 negatives come after the positive, in
the same relative order as their source columns j (j ≠ i, j ≠ partner(i)) in
the similarity row. -/
theorem claim_c6_negatives_order (N : ℕ) (t : ℝ) (f : List (List ℝ)) (i : ℕ)
    (hN : 2 ≤ N) (hf : f.length = 2 * N) (ht : 0 < t) (hi : i < 2 * N) :
    ((info_nce_loss N t f).1.getD i []).drop 1 =
      ((List.range (2 * N)).filter (fun j => j != i && j != pair_idx N i)).map
        (fun j => sim_entry f i j / t) := by
  have hb : 1 ≤ N := le_trans one_le_two hN
  simp only [info_nce_loss_eq N t f hb hf]
  rw [getD_map_range _ _ hi, List.drop_one, List.tail_cons]

/-- C7: the similarity matrix computed before masking is symmetric:
entry (i, j) equals entry (j, i) for all indices of the matrix. -/
theorem claim_c7_symmetry (f : List (List ℝ)) (i j : ℕ)
    (hi : i < f.length) (hj : j < f.length) :
    ((similarity_matrix f).getD i []).getD j 0 =
      ((similarity_matrix f).getD j []).getD i 0 := by
  rw [similarity_matrix_eq, getD_map_range _ _ hi, getD_map_range _ _ hj,
    getD_map_range _ _ hj, getD_map_range _ _ hi]
  unfold sim_entry
  exact dot_comm _ _

/-- C8: doubling the temperature halves every logits entry, for any batch,
any anchor index and any position in the row. -/
theorem claim_c8_temperature_scaling (b : ℕ) (t : ℝ) (f : List (List ℝ)) (i k : ℕ) :
    ((info_nce_loss b (2 * t) f).1.getD i []).getD k 0 =
      ((info_nce_loss b t f).1.getD i []).getD k 0 / 2 := by
  simp only [info_nce_loss_double_temp]
  rw [getD_map_of_default (List.map (fun x => x / 2)) _ i [] [] rfl,
    getD_map_of_default (fun x => x / 2) _ k 0 0 (zero_div 2)]

/-- C9: the method output depends only on the batch, `self.batch_size` and
`self.temperature`; every other piece of the trainer object (model,
optimizer, scheduler, device, criterion, epochs) is irrelevant and nothing
is mutated, so two calls with the same inputs agree. -/
theorem claim_c9_purity (s₁ s₂ : SimCLR) (features : List (List ℝ))
    (hbatch : s₁.batch_size = s₂.batch_size)
    (htemp : s₁.temperature = s₂.temperature) :
    s₁.info_nce_loss features = s₂.info_nce_loss features := by
  unfold SimCLR.info_nce_loss info_nce
  rw [hbatch, htemp]

/-- C10: multiplying any one embedding vector by a positive scalar leaves
the returned logits and labels unchanged, because every vector is
L2-normalized before similarities are computed. -/
theorem claim_c10_scale_invariance (b : ℕ) (t : ℝ) (f : List (List ℝ))
    (m : ℕ) (c : ℝ) (hm : m < f.length) (hc : 0 < c) :
    info_nce_loss b t (f.set m ((f.getD m []).map (fun x => c * x))) =
      info_nce_loss b t f := by
  apply info_nce_loss_congr
  rw [List.map_set, l2_normalize_map_mul c hc, ← getD_map_l2_normalize]
  exact set_getD_self _ m [] (by simpa using hm)

/-- C5: no logits row contains a self-similarity: every entry of row i is a
(temperature-scaled) similarity `sim_entry f i j` with j ≠ i. -/
theorem claim_c5_self_exclusion (N : ℕ) (t : ℝ) (f : List (List ℝ)) (i k : ℕ)
    (hN : 2 ≤ N) (hf : f.length = 2 * N) (ht : 0 < t) (hi : i < 2 * N)
    (hk : k < ((info_nce_loss N t f).1.getD i []).length) :
    ∃ j, j < 2 * N ∧ j ≠ i ∧
      ((info_nce_loss N t f).1.getD i []).getD k 0 = sim_entry f i j / t := by
  have hb : 1 ≤ N := le_trans one_le_two hN
  simp only [info_nce_loss_eq N t f hb hf] at hk ⊢
  rw [getD_map_range _ _ hi] at hk ⊢
  cases k with
  | zero =>
    refine ⟨pair_idx N i, pair_idx_lt N i hb hi, pair_idx_ne N i hb hi, ?_⟩
    rw [List.getD_cons_zero]
  | succ k =>
    rw [List.length_cons, List.length_map] at hk
    have hk' : k < ((List.range (2 * N)).filter
        (fun j => j != i && j != pair_idx N i)).length := by omega
    have hsplit := List.mem_filter.mp (List.get_mem
      ((List.range (2 * N)).filter (fun j => j != i && j != pair_idx N i)) k hk')
    have hlt := List.mem_range.mp hsplit.1
    have hne : ((List.range (2 * N)).filter
        (fun j => j != i && j != pair_idx N i)).get ⟨k, hk'⟩ ≠ i := by
      have hcond := hsplit.2
      simp only [Bool.and_eq_true, bne_iff_ne, ne_eq] at hcond
      exact hcond.1
    refine ⟨_, hlt, hne, ?_⟩
    rw [List.getD_cons_succ]
    have hkm : k < (((List.range (2 * N)).filter
        (fun j => j != i && j != pair_idx N i)).map (fun j => sim_entry f i j / t)).length := by
      rw [List.length_map]
      exact hk'
    rw [List.getD_eq_getElem _ _ hkm, List.getElem_map, List.get_eq_getElem]

/-- C3 counterexample input: with batch_size = 1 (N = 1), the code raises
nothing and returns a degenerate result, so `score` does not fail with
InvalidBatch. -/
theorem claim_c3_counterexample :
    info_nce_loss 1 1 ex_pair = ([[0], [0]], [0, 0]) := by
  have hnorm1 : l2_normalize [(1 : ℝ), 0] = [1, 0] := by
    unfold l2_normalize l2norm dot
    norm_num [Real.sqrt_one]
  have hnorm2 : l2_normalize [(0 : ℝ), 1] = [0, 1] := by
    unfold l2_normalize l2norm dot
    norm_num [Real.sqrt_one]
  rw [info_nce_loss_eq 1 1 ex_pair (le_refl 1) rfl]
  refine congrArg₂ Prod.mk ?_ rfl
  rw [show List.range (2 * 1) = [0, 1] from rfl]
  simp only [List.map_cons, List.map_nil]
  have hp0 : pair_idx 1 0 = 1 := rfl
  have hp1 : pair_idx 1 1 = 0 := rfl
  have hf0 : ([0, 1] : List ℕ).filter (fun j => j != 0 && j != pair_idx 1 0) = [] := rfl
  have hf1 : ([0, 1] : List ℕ).filter (fun j => j != 1 && j != pair_idx 1 1) = [] := rfl
  rw [hf0, hf1, hp0, hp1]
  unfold sim_entry ex_pair
  simp only [List.getD_cons_zero, List.getD_cons_succ, List.map_nil]
  rw [hnorm1, hnorm2]
  have hdot : dot [(1 : ℝ), 0] [0, 1] = 0 := by
    unfold dot
    norm_num
  have hdot' : dot [(0 : ℝ), 1] [1, 0] = 0 := by
    unfold dot
    norm_num
  rw [hdot, hdot']
  norm_num

/-- C3 amended: the code performs no batch validation; with batch_size = 1
(features of length 2) it returns a 2 × 1 logits matrix (only the positive
entry, no negatives) and labels [0, 0] instead of raising InvalidBatch. -/
theorem claim_c3_degenerate (t : ℝ) (f : List (List ℝ))
    (hf : f.length = 2 * 1) (ht : 0 < t) :
    (info_nce_loss 1 t f).1.map List.length = List.replicate 2 1 ∧
    (info_nce_loss 1 t f).2 = List.replicate 2 0 := by
  have hm := info_nce_loss_eq 1 t f (le_refl 1) hf
  constructor
  · have h1 : (List.range (2 * 1)).map (fun _ : ℕ => 1) = List.replicate 2 1 := by
      rw [List.map_const', List.length_range]
    rw [← h1]
    simp only [hm]
    rw [List.map_map]
    apply List.map_congr_left
    intro i hi
    have hi' := List.mem_range.mp hi
    simp only [Function.comp_apply, List.length_cons, List.length_map]
    rw [negatives_length 1 i (le_refl 1) hi']
  · rw [hm]

/-- C4 counterexample input: on the spec's worked example with temperature
-1, the code raises nothing and returns a full (logits, labels) pair, so
`score` does not fail with InvalidParameter for temperature ≤ 0. -/
theorem claim_c4_counterexample :
    info_nce_loss 2 (-1) ex_batch =
      ([[-1, 0, 0], [-1, 0, 0], [-1, 0, 0], [-1, 0, 0]], [0, 0, 0, 0]) := by
  have hnorm1 : l2_normalize [(1 : ℝ), 0] = [1, 0] := by
    unfold l2_normalize l2norm dot
    norm_num [Real.sqrt_one]
  have hnorm2 : l2_normalize [(0 : ℝ), 1] = [0, 1] := by
    unfold l2_normalize l2norm dot
    norm_num [Real.sqrt_one]
  have hd11 : dot [(1 : ℝ), 0] [1, 0] = 1 := by
    unfold dot
    norm_num
  have hd10 : dot [(1 : ℝ), 0] [0, 1] = 0 := by
    unfold dot
    norm_num
  have hd01 : dot [(0 : ℝ), 1] [1, 0] = 0 := by
    unfold dot
    norm_num
  have hd00 : dot [(0 : ℝ), 1] [0, 1] = 1 := by
    unfold dot
    norm_num
  rw [info_nce_loss_eq 2 (-1) ex_batch one_le_two rfl]
  refine congrArg₂ Prod.mk ?_ rfl
  rw [show List.range (2 * 2) = [0, 1, 2, 3] from rfl]
  simp only [List.map_cons, List.map_nil]
  rw [show pair_idx 2 0 = 2 from rfl, show pair_idx 2 1 = 3 from rfl,
    show pair_idx 2 2 = 0 from rfl, show pair_idx 2 3 = 1 from rfl]
  rw [show ([0, 1, 2, 3] : List ℕ).filter (fun j => j != 0 && j != 2) = [1, 3] from rfl,
    show ([0, 1, 2, 3] : List ℕ).filter (fun j => j != 1 && j != 3) = [0, 2] from rfl,
    show ([0, 1, 2, 3] : List ℕ).filter (fun j => j != 2 && j != 0) = [1, 3] from rfl,
    show ([0, 1, 2, 3] : List ℕ).filter (fun j => j != 3 && j != 1) = [0, 2] from rfl]
  unfold sim_entry
  simp only [List.map_cons, List.map_nil]
  rw [show ex_batch.getD 0 [] = [(1 : ℝ), 0] from rfl,
    show ex_batch.getD 1 [] = [(0 : ℝ), 1] from rfl,
    show ex_batch.getD 2 [] = [(1 : ℝ), 0] from rfl,
    show ex_batch.getD 3 [] = [(0 : ℝ), 1] from rfl]
  rw [hnorm1, hnorm2, hd11, hd10, hd01, hd00]
  norm_num

/-- C4 amended: the code performs no temperature validation: for any
temperature t ≤ 0 it still returns a full (logits, labels) pair, equal to
the temperature-1 result with every logit divided by t. -/
theorem claim_c4_no_validation (b : ℕ) (t : ℝ) (f : List (List ℝ)) (ht : t ≤ 0) :
    info_nce_loss b t f =
      ((info_nce_loss b 1 f).1.map (List.map (fun x => x / t)),
       (info_nce_loss b 1 f).2) := by
  simp only [info_nce_loss]
  refine congrArg₂ Prod.mk ?_ rfl
  simp only [List.map_map]
  apply List.map_congr_left
  intro row _
  simp only [Function.comp_apply, List.map_map]
  apply List.map_congr_left
  intro x _
  simp only [Function.comp_apply, div_one]

/-! ### Witnesses: the claim theorems instantiated at the worked example -/

theorem claim_c1_shape_witness :
    2 ≤ 2 ∧ ex_batch.length = 2 * 2 ∧ (0 : ℝ) < 1 ∧
      ((info_nce_loss 2 1 ex_batch).1.map List.length
          = List.replicate (2 * 2) (2 * 2 - 1) ∧
        (info_nce_loss 2 1 ex_batch).2 = List.replicate (2 * 2) 0) :=
  ⟨le_refl 2, rfl, one_pos, claim_c1_shape 2 1 ex_batch (le_refl 2) rfl one_pos⟩

theorem claim_c2_positive_witness :
    2 ≤ 2 ∧ ex_batch.length = 2 * 2 ∧ (0 : ℝ) < 1 ∧ 0 < 2 * 2 ∧
      ((info_nce_loss 2 1 ex_batch).1.getD 0 []).getD 0 0 =
        cosine_similarity (ex_batch.getD 0 []) (ex_batch.getD (pair_idx 2 0) []) / 1 :=
  ⟨le_refl 2, rfl, one_pos, by decide,
    claim_c2_positive 2 1 ex_batch 0 (le_refl 2) rfl one_pos (by decide)⟩

theorem claim_c3_degenerate_witness :
    ex_pair.length = 2 * 1 ∧ (0 : ℝ) < 1 ∧
      ((info_nce_loss 1 1 ex_pair).1.map List.length = List.replicate 2 1 ∧
        (info_nce_loss 1 1 ex_pair).2 = List.replicate 2 0) :=
  ⟨rfl, one_pos, claim_c3_degenerate 1 ex_pair rfl one_pos⟩

theorem claim_c4_no_validation_witness :
    (-1 : ℝ) ≤ 0 ∧
      info_nce_loss 2 (-1) ex_batch =
        ((info_nce_loss 2 1 ex_batch).1.map (List.map (fun x => x / (-1))),
         (info_nce_loss 2 1 ex_batch).2) :=
  ⟨neg_nonpos.mpr zero_le_one,
    claim_c4_no_validation 2 (-1) ex_batch (neg_nonpos.mpr zero_le_one)⟩

theorem claim_c5_self_exclusion_witness :
    (2 ≤ 2 ∧ ex_batch.length = 2 * 2 ∧ (0 : ℝ) < 1 ∧ 0 < 2 * 2 ∧
      0 < ((info_nce_loss 2 1 ex_batch).1.getD 0 []).length) ∧
    (∃ j, j < 2 * 2 ∧ j ≠ 0 ∧
      ((info_nce_loss 2 1 ex_batch).1.getD 0 []).getD 0 0
        = sim_entry ex_batch 0 j / 1) := by
  have hk : 0 < ((info_nce_loss 2 1 ex_batch).1.getD 0 []).length := by
    simp only [info_nce_loss_eq 2 1 ex_batch one_le_two rfl]
    rw [getD_map_range _ _ (by decide : (0 : ℕ) < 2 * 2)]
    simp
  exact ⟨⟨le_refl 2, rfl, one_pos, by decide, hk⟩,
    claim_c5_self_exclusion 2 1 ex_batch 0 0 (le_refl 2) rfl one_pos (by decide) hk⟩

theorem claim_c6_negatives_order_witness :
    2 ≤ 2 ∧ ex_batch.length = 2 * 2 ∧ (0 : ℝ) < 1 ∧ 0 < 2 * 2 ∧
      ((info_nce_loss 2 1 ex_batch).1.getD 0 []).drop 1 =
        ((List.range (2 * 2)).filter (fun j => j != 0 && j != pair_idx 2 0)).map
          (fun j => sim_entry ex_batch 0 j / 1) :=
  ⟨le_refl 2, rfl, one_pos, by decide,
    claim_c6_negatives_order 2 1 ex_batch 0 (le_refl 2) rfl one_pos (by decide)⟩

theorem claim_c7_symmetry_witness :
    0 < ex_batch.length ∧ 1 < ex_batch.length ∧
      ((similarity_matrix ex_batch).getD 0 []).getD 1 0 =
        ((similarity_matrix ex_batch).getD 1 []).getD 0 0 :=
  ⟨by decide, by decide, claim_c7_symmetry ex_batch 0 1 (by decide) (by decide)⟩

theorem claim_c9_purity_witness :
    (SimCLR.mk 0 1 2 3 4 2 1 5).batch_size = (SimCLR.mk 9 8 7 6 5 2 1 100).batch_size ∧
    (SimCLR.mk 0 1 2 3 4 2 1 5).temperature = (SimCLR.mk 9 8 7 6 5 2 1 100).temperature ∧
    (SimCLR.mk 0 1 2 3 4 2 1 5).info_nce_loss ex_batch
      = (SimCLR.mk 9 8 7 6 5 2 1 100).info_nce_loss ex_batch :=
  ⟨rfl, rfl, claim_c9_purity _ _ ex_batch rfl rfl⟩

theorem claim_c10_scale_invariance_witness :
    0 < ex_batch.length ∧ (0 : ℝ) < 2 ∧
      info_nce_loss 2 1 (ex_batch.set 0 ((ex_batch.getD 0 []).map (fun x => 2 * x)))
        = info_nce_loss 2 1 ex_batch :=
  ⟨by decide, two_pos, claim_c10_scale_invariance 2 1 ex_batch 0 2 (by decide) two_pos⟩
